import Mathlib

/-!
# decho: message assembly, webhook resolution and transport

A shallow embedding of `decho.go`.  Go strings are modelled as lists of Unicode
characters (`GoString`); their Go length `len` is the length of their UTF-8
encoding.  Everything the program reads from its surroundings (standard input,
command-line arguments, the environment, the file system, the HTTP server) is
a field of `World`, and `mainAction` returns, next to its result, the list of
HTTP requests it issued.
-/

namespace Decho

/-! ## Strings and bytes -/

/-- A Go `string` holding valid UTF-8: the sequence of its Unicode characters.
Byte sequences that are not valid UTF-8 are outside the model. -/
abbrev GoString := List Char

/-- The conversion `[]byte(s)`: the UTF-8 encoding of the string. -/
def toBytes (s : GoString) : List UInt8 :=
  s.flatMap String.utf8EncodeChar

/-- The builtin `len(s)` on a string: its number of bytes. -/
def len (s : GoString) : Nat :=
  (toBytes s).length

/-- The number of Unicode characters of a string (what `len` does not count). -/
def runeCount (s : GoString) : Nat :=
  s.length

/-! ## Constants and data model -/

/-- The constant `maxSize`: discord file limit. -/
def maxSize : Nat := 8 * 1024 * 1024

/-- The constant `maxCharacters`: discord message limit. -/
def maxCharacters : Nat := 2000

/-- The struct `Attachment`. -/
structure Attachment where
  name : GoString
  file : List UInt8
deriving DecidableEq, Repr

/-- The struct `Message`. -/
structure Message where
  files : List Attachment
  text : GoString
deriving DecidableEq, Repr

/-- The constructor function `NewAttachment`. -/
def NewAttachment (name : GoString) (file : List UInt8) : Attachment :=
  { name := name, file := file }

/-- How a Go call can fail: by returning a non-nil `error` with the given
message, or by panicking. -/
inductive Failure where
  | error (msg : GoString)
  | panic (msg : GoString)
deriving DecidableEq, Repr

/-- Results of Go calls can be compared. -/
instance instDecidableEqExcept {ε α : Type} [DecidableEq ε] [DecidableEq α] :
    DecidableEq (Except ε α)
  | .ok a, .ok b => if h : a = b then isTrue (by rw [h]) else isFalse (by simpa using h)
  | .error a, .error b => if h : a = b then isTrue (by rw [h]) else isFalse (by simpa using h)
  | .ok _, .error _ => isFalse (by simp)
  | .error _, .ok _ => isFalse (by simp)

/-! ## The surroundings of the program -/

/-- The body handed to `http.Post`, before it is put on the wire:
either the JSON object produced by `json.Marshal` from a `map[string]string`
(as its key/value pairs, keys in sorted order as `json.Marshal` emits them),
or the parts written through a `multipart.Writer`: the value of the form field
`content`, then the file parts as (form field name, file name, bytes). -/
inductive Payload where
  | json (fields : List (GoString × GoString))
  | multipart (content : List UInt8) (parts : List (GoString × GoString × List UInt8))
deriving DecidableEq, Repr

/-- One call of `http.Post(url, contentType, body)`. -/
structure Request where
  url : GoString
  contentType : GoString
  body : Payload
deriving DecidableEq, Repr

/-- The fields of `http.Response` the program looks at.  `body` is the result
of `io.ReadAll(response.Body)`. -/
structure Response where
  Status : GoString
  StatusCode : Nat
  body : Except GoString GoString

/-- Everything outside the program that its behaviour depends on. -/
structure World where
  /-- The result of `os.Stdin.Stat()`: an error, or whether `os.ModeCharDevice` is set. -/
  stdinStat : Except GoString Bool
  /-- The data standard input delivers until end of file. -/
  stdin : GoString
  /-- The non-flag command-line arguments, `flag.Args()`. -/
  args : List GoString
  /-- The process environment: `none` for an unset variable. -/
  lookupEnv : GoString → Option GoString
  /-- The function `os.ReadFile`. -/
  readFile : GoString → Except GoString (List UInt8)
  /-- The boundary the `multipart.Writer` picks. -/
  boundary : GoString
  /-- The function `http.Post`: a transport error or the response of the server. -/
  httpPost : Request → Except GoString Response

/-- The function `os.Getenv`: the empty string for an unset variable. -/
def World.Getenv (w : World) (key : GoString) : GoString :=
  (w.lookupEnv key).getD []

/-! ## Attachment builder -/

/-- The function `path.Split`: splits immediately after the final slash and
returns (directory, file); without a slash the directory is empty. -/
def pathSplit (p : GoString) : GoString × GoString :=
  let file := (p.reverse.takeWhile (fun c => c != '/')).reverse
  (p.take (p.length - file.length), file)

/-- The function `makeAttachmentFromPath`. -/
def makeAttachmentFromPath (w : World) (filePath : GoString) : Except Failure Attachment :=
  match w.readFile filePath with
  | .error err => .error (.error err)
  | .ok dat =>
    let filename := (pathSplit filePath).2
    .ok (NewAttachment filename dat)

/-! ## Webhook resolver -/

/-- The function `getWebhook`. -/
def getWebhook (w : World) (webhookFromArg : GoString) : Except Failure GoString :=
  let webhook := if webhookFromArg ≠ [] then webhookFromArg
    else w.Getenv "DECHO_DISCORD_WEBHOOK".toList
  if webhook = [] then .error (.error "No webhook provided".toList)
  else .ok webhook

/-! ## Input collector -/

/-- The character class `[0-9;]` of the pattern. -/
def isCodeParam (c : Char) : Bool :=
  ('0' ≤ c && c ≤ '9') || c == ';'

/-- An anchored match of the pattern `\x1b\[[0-9;]*m` (the regular expression
`asciiCodeRe`) at the start of the string: the text after the match, if there
is one.  The star is greedy; as `m` is not in the class, taking every
parameter character is the only way to match. -/
def asciiCodeReMatch : GoString → Option GoString
  | '\x1b' :: '[' :: rest =>
    match rest.dropWhile isCodeParam with
    | 'm' :: after => some after
    | _ => none
  | _ => none

/-- The loop of `ReplaceAllString(text, "")` for `asciiCodeRe`: scanning from
the left, a match is dropped and the search resumes after it; a character at
which no match starts is copied.  The first argument bounds the number of
steps. -/
def replaceAllLoop : Nat → GoString → GoString
  | 0, _ => []
  | _ + 1, [] => []
  | n + 1, c :: cs =>
    match asciiCodeReMatch (c :: cs) with
    | some after => replaceAllLoop n after
    | none => c :: replaceAllLoop n cs

/-- The call `asciiCodeRe.ReplaceAllString(text, "")`.  Every step of the loop
consumes at least one character, so `text.length` steps are enough. -/
def asciiCodeReReplaceAll (text : GoString) : GoString :=
  replaceAllLoop text.length text

/-- The helper `dropCR` of `bufio.ScanLines`: drops one trailing carriage return. -/
def dropCR (data : GoString) : GoString :=
  if data.getLast? = some '\r' then data.dropLast else data

/-- The tokens that successive `scanner.Scan()` calls deliver with the default
split function `bufio.ScanLines` and a buffer of `limit` bytes
(`scanner.Buffer(buffer, maxSize)`).  `cur` is the part of the current line
read so far.  A line ends at a newline or at a non-empty end of input, one
trailing carriage return is dropped.  A line that fills the buffer before its
end is seen makes `Scan` return false (`ErrTooLong`), which ends the loop. -/
def scanTokens (limit : Nat) : GoString → GoString → List GoString
  | [], cur =>
    if cur = [] then [] else if len cur < limit then [dropCR cur] else []
  | c :: rest, cur =>
    if c = '\n' then
      if len cur < limit then dropCR cur :: scanTokens limit rest [] else []
    else scanTokens limit rest (cur ++ [c])

/-- The lines the `for scanner.Scan()` loop of `getTextFromStdin` sees.  When
standard input is a character device it has been closed before the loop, and
the first `Scan` fails. -/
def stdinLines (w : World) (isCharDevice : Bool) : List GoString :=
  if isCharDevice then [] else scanTokens maxSize w.stdin []

/-- The text accumulated by the loop `text += partial + "\n"`. -/
def accumulateLines (lines : List GoString) : GoString :=
  lines.foldl (fun text line => text ++ (line ++ "\n".toList)) []

/-- The function `getTextFromStdin`.  A failing `Stat` panics. -/
def getTextFromStdin (w : World) : Except Failure GoString :=
  match w.stdinStat with
  | .error err => .error (.panic err)
  | .ok isCharDevice =>
    let text := accumulateLines (stdinLines w isCharDevice)
    .ok (asciiCodeReReplaceAll text)

/-- The function `getTextFromArgs`: `strings.Join(args, " ")`. -/
def getTextFromArgs (w : World) : GoString :=
  " ".toList.intercalate w.args

/-! ## Message assembler -/

/-- The body of `buildMessage` after the text has been collected (from
`files := make([]Attachment, 0)` on). -/
def assembleMessage (w : World) (text : GoString) (filePath : GoString) :
    Except Failure Message := do
  let mut text := text
  let mut files : List Attachment := []
  if len text > maxCharacters then
    if (toBytes text).length > maxSize then
      throw (.error "Message too big to send".toList)
    else
      files := files ++ [NewAttachment "message.txt".toList (toBytes text)]
      text := []
  if filePath ≠ [] then
    let file ← makeAttachmentFromPath w filePath
    files := files ++ [file]
  return { files := files, text := text }

/-- The first two statements of `buildMessage`: the text from standard input
followed by the text from the arguments. -/
def collectText (w : World) : Except Failure GoString := do
  let text ← getTextFromStdin w
  return text ++ getTextFromArgs w

/-- The function `buildMessage`. -/
def buildMessage (w : World) (filePath : GoString) : Except Failure Message := do
  let text ← collectText w
  assembleMessage w text filePath

/-! ## Transport -/

/-- The result of a send: the returned `error` (or success) and the HTTP
requests issued, in order.  A `Failure.panic` stands for a panic that passes
through the call. -/
abbrev Sent := Except Failure Unit × List Request

/-- The request `sendMessageTextOnly` posts: the JSON object with the keys
`username` and `content`, with content type `application/json`.
`json.Marshal` of a `map[string]string` cannot fail. -/
def textOnlyRequest (m : Message) (webhook : GoString) : Request :=
  { url := webhook
    contentType := "application/json".toList
    body := Payload.json [("content".toList, m.text), ("username".toList, "decho".toList)] }

/-- The function `sendMessageTextOnly`. -/
def sendMessageTextOnly (w : World) (m : Message) (webhook : GoString) : Sent :=
  let request := textOnlyRequest m webhook
  match w.httpPost request with
  | .error err => (.error (.error err), [request])
  | .ok response =>
    if response.StatusCode ≠ 204 then
      match response.body with
      | .error err => (.error (.error err), [request])
      | .ok body =>
        (.error (.error ("Discord returned status: ".toList ++ response.Status ++
          ", message: ".toList ++ body)), [request])
    else (.ok (), [request])

/-- The request `sendMessageWithFile` posts: the form field `content` with
the text, then one file part per attachment under the field name `file`, in
list order.  Writing into a `bytes.Buffer` cannot fail, so every part is
written. -/
def withFileRequest (w : World) (m : Message) (webhook : GoString) : Request :=
  { url := webhook
    contentType := "multipart/form-data; boundary=".toList ++ w.boundary
    body := Payload.multipart (toBytes m.text)
      (m.files.map (fun attachment => ("file".toList, attachment.name, attachment.file))) }

/-- The function `sendMessageWithFile`. -/
def sendMessageWithFile (w : World) (m : Message) (webhook : GoString) : Sent :=
  let request := withFileRequest w m webhook
  match w.httpPost request with
  | .error err => (.error (.error err), [request])
  | .ok response =>
    if response.StatusCode ≠ 204 then
      (.error (.error ("Discord returned status: ".toList ++ response.Status)), [request])
    else (.ok (), [request])

/-- The function `mainAction`. -/
def mainAction (w : World) (filePath : GoString) (webhookFromArg : GoString) : Sent :=
  match getWebhook w webhookFromArg with
  | .error err => (.error err, [])
  | .ok webhook =>
    match buildMessage w filePath with
    | .error err => (.error err, [])
    | .ok message =>
      if message.files.length = 0 then sendMessageTextOnly w message webhook
      else sendMessageWithFile w message webhook

/-! ## SGR sequences, in the words of the pattern -/

/-- A digit or a semicolon. -/
def IsParam (d : Char) : Prop :=
  ('0' ≤ d ∧ d ≤ '9') ∨ d = ';'

/-- Whether a character is a digit or a semicolon can be computed. -/
instance instDecidableIsParam (d : Char) : Decidable (IsParam d) := by
  unfold IsParam
  infer_instance

/-- In the words of the pattern: `s` is an SGR sequence — ESC, `[`, any number
of digits and semicolons, `m` — followed by `rest`. -/
def IsCodeThen (s rest : GoString) : Prop :=
  ∃ ds : GoString, (∀ d ∈ ds, IsParam d) ∧ s = '\x1b' :: '[' :: (ds ++ 'm' :: rest)

/-- The string `s` starts with an SGR sequence. -/
def StartsWithCode (s : GoString) : Prop :=
  ∃ rest, IsCodeThen s rest

/-- The string `s` contains an SGR sequence somewhere. -/
def ContainsCode (s : GoString) : Prop :=
  ∃ before rest, StartsWithCode rest ∧ s = before ++ rest

/-- A text in which every ESC character begins a complete SGR sequence:
sequences are not nested and none is cut short. -/
inductive Unnested : GoString → Prop where
  | nil : Unnested []
  | keep (c : Char) (s : GoString) : c ≠ '\x1b' → Unnested s → Unnested (c :: s)
  | code (ds s : GoString) : (∀ d ∈ ds, IsParam d) → Unnested s →
      Unnested ('\x1b' :: '[' :: (ds ++ 'm' :: s))

/-! ## Lines, in the words of the description -/

/-- Each line followed by one newline, in order. -/
def joinLines (lines : List GoString) : GoString :=
  (lines.map (fun line => line ++ ['\n'])).flatten

/-- A line the scanner hands over unchanged: no newline inside, no carriage
return at its end, shorter than the buffer. -/
def PlainLine (limit : Nat) (l : GoString) : Prop :=
  '\n' ∉ l ∧ l.getLast? ≠ some '\r' ∧ len l < limit

/-! ## Named values of the assembly -/

/-- The attachment that carries an overflowing text. -/
def textAttachment (text : GoString) : Attachment :=
  NewAttachment "message.txt".toList (toBytes text)

/-- The error of an oversized text. -/
def errTooBig : Failure := .error "Message too big to send".toList

/-! ## Inputs used to exercise the statements -/

/-- A server that answers every request with the given status and body. -/
def answering (code : Nat) (status body : GoString) : Request → Except GoString Response :=
  fun _ => .ok { Status := status, StatusCode := code, body := .ok body }

/-- An interactive run: standard input is a terminal, there are no arguments,
no environment, no readable file, and the server answers 204. -/
def quiet : World :=
  { stdinStat := .ok true
    stdin := []
    args := []
    lookupEnv := fun _ => none
    readFile := fun _ => .error "open: no such file or directory".toList
    boundary := "boundary".toList
    httpPost := answering 204 "204 No Content".toList [] }

/-- A run with the given data piped into standard input. -/
def piped (data : String) : World :=
  { quiet with stdinStat := .ok false, stdin := data.toList }

/-- The webhook used in the examples. -/
def hook : GoString := "https://example.com/hook".toList

/-- The text of 1001 two-byte characters. -/
def accents : GoString := List.replicate 1001 'é'

/-- A run on a terminal with `accents` as its only argument. -/
def worldAccents : World := { quiet with args := [accents] }

/-- A text of 2001 one-byte characters. -/
def longText : GoString := List.replicate 2001 'a'

/-- A run on a terminal with `longText` as its only argument, in which the
file `logs/out.txt` holds the two bytes `hi`. -/
def worldLong : World :=
  { quiet with
    args := [longText]
    readFile := fun path =>
      if path = "logs/out.txt".toList then .ok [104, 105]
      else .error "open: no such file or directory".toList }

/-- A text of one byte more than `maxSize`. -/
def hugeText : GoString := List.replicate (maxSize + 1) 'a'

/-- A text of exactly `maxSize` bytes. -/
def exactText : GoString := List.replicate maxSize 'a'

/-- A run on a terminal with `hugeText` as its only argument and no webhook
in the environment. -/
def worldHuge : World := { quiet with args := [hugeText] }

/-- A run on a terminal with `exactText` as its only argument. -/
def worldExact : World := { quiet with args := [exactText] }

/-- A run in which only the environment names a webhook. -/
def worldEnv : World :=
  { quiet with
    lookupEnv := fun key =>
      if key = "DECHO_DISCORD_WEBHOOK".toList then some hook else none }

/-- A run in which the environment variable is set to the empty string. -/
def worldEmptyEnv : World :=
  { quiet with
    lookupEnv := fun key =>
      if key = "DECHO_DISCORD_WEBHOOK".toList then some [] else none }

/-- A run with `longText` as its only argument against a server that answers
`400 Bad Request` with the body `oops`. -/
def worldLongRejected : World :=
  { quiet with
    args := [longText]
    httpPost := answering 400 "400 Bad Request".toList "oops".toList }

/-- A run with `hi` as its only argument against the same server. -/
def worldShortRejected : World :=
  { quiet with
    args := ["hi".toList]
    httpPost := answering 400 "400 Bad Request".toList "oops".toList }

/-- A run on a terminal with the argument `hi`, nothing else. -/
def worldHi : World := { quiet with args := ["hi".toList] }

/-! # Theorems -/

/-! ## Lengths -/

theorem len_nil : len [] = 0 := rfl

theorem len_cons (c : Char) (s : GoString) : len (c :: s) = c.utf8Size + len s := by
  simp [len, toBytes]

theorem len_append (s t : GoString) : len (s ++ t) = len s + len t := by
  simp [len, toBytes]

/-- A string has at most as many characters as bytes. -/
theorem runeCount_le_len (s : GoString) : runeCount s ≤ len s := by
  induction s with
  | nil => simp [runeCount, len_nil]
  | cons c s ih =>
    have hc := Char.utf8Size_pos c
    simp only [runeCount, List.length_cons] at ih ⊢
    rw [len_cons]
    omega

/-- A string of `n` letters `a` has `n` bytes. -/
theorem len_replicate_a (n : Nat) : len (List.replicate n 'a') = n := by
  induction n with
  | zero => rfl
  | succ n ih =>
    rw [List.replicate_succ, len_cons, ih]
    have : Char.utf8Size 'a' = 1 := by decide
    omega

/-! ## The pattern and the replacement loop -/

theorem isCodeParam_iff (d : Char) : isCodeParam d = true ↔ IsParam d := by
  simp [isCodeParam, IsParam]

theorem dropWhile_params (ds rest : GoString) (h : ∀ d ∈ ds, IsParam d) :
    (ds ++ 'm' :: rest).dropWhile isCodeParam = 'm' :: rest := by
  induction ds with
  | nil => rfl
  | cons d ds ih =>
    have hd : isCodeParam d = true := (isCodeParam_iff d).mpr (h d (List.mem_cons_self _ _))
    rw [List.cons_append, List.dropWhile_cons_of_pos hd]
    exact ih (fun x hx => h x (List.mem_cons_of_mem _ hx))

theorem asciiCodeReMatch_of_isCodeThen {s rest : GoString} (h : IsCodeThen s rest) :
    asciiCodeReMatch s = some rest := by
  obtain ⟨ds, hds, rfl⟩ := h
  simp [asciiCodeReMatch, dropWhile_params ds rest hds]

theorem isCodeThen_of_asciiCodeReMatch {s rest : GoString}
    (h : asciiCodeReMatch s = some rest) : IsCodeThen s rest := by
  unfold asciiCodeReMatch at h
  split at h
  · rename_i r
    split at h
    · rename_i after hdrop
      simp only [Option.some.injEq] at h
      subst h
      refine ⟨r.takeWhile isCodeParam, ?_, ?_⟩
      · intro d hd
        exact (isCodeParam_iff d).mp (List.mem_takeWhile_imp hd)
      · rw [← hdrop, List.takeWhile_append_dropWhile]
    · simp at h
  · simp at h

theorem asciiCodeReMatch_eq_some_iff (s rest : GoString) :
    asciiCodeReMatch s = some rest ↔ IsCodeThen s rest :=
  ⟨isCodeThen_of_asciiCodeReMatch, asciiCodeReMatch_of_isCodeThen⟩

theorem asciiCodeReMatch_eq_none_iff (s : GoString) :
    asciiCodeReMatch s = none ↔ ¬ StartsWithCode s := by
  constructor
  · rintro h ⟨rest, hr⟩
    rw [asciiCodeReMatch_of_isCodeThen hr] at h
    simp at h
  · intro h
    cases hm : asciiCodeReMatch s with
    | none => rfl
    | some rest => exact absurd ⟨rest, isCodeThen_of_asciiCodeReMatch hm⟩ h

theorem IsCodeThen.length_lt {s rest : GoString} (h : IsCodeThen s rest) :
    rest.length + 3 ≤ s.length := by
  obtain ⟨ds, _, rfl⟩ := h
  simp only [List.length_cons, List.length_append]
  omega

/-- Any bound of at least the length of the text gives the same result. -/
theorem replaceAllLoop_bound (n m : Nat) (s : GoString) (hn : s.length ≤ n)
    (hm : s.length ≤ m) : replaceAllLoop n s = replaceAllLoop m s := by
  induction n generalizing m s with
  | zero =>
    have hs : s = [] := List.length_eq_zero.mp (Nat.le_zero.mp hn)
    subst hs
    cases m <;> rfl
  | succ n ih =>
    cases s with
    | nil => cases m <;> rfl
    | cons c cs =>
      cases m with
      | zero => simp at hm
      | succ m =>
        simp only [replaceAllLoop]
        cases hmatch : asciiCodeReMatch (c :: cs) with
        | some after =>
          have hlt := (isCodeThen_of_asciiCodeReMatch hmatch).length_lt
          simp only [List.length_cons] at hn hm hlt
          exact ih m after (by omega) (by omega)
        | none =>
          simp only [List.length_cons] at hn hm
          simp only
          rw [ih m cs (by omega) (by omega)]

theorem asciiCodeReReplaceAll_nil : asciiCodeReReplaceAll [] = [] := rfl

/-- A match at the current position is dropped and the search resumes after it. -/
theorem asciiCodeReReplaceAll_code {s rest : GoString} (h : IsCodeThen s rest) :
    asciiCodeReReplaceAll s = asciiCodeReReplaceAll rest := by
  have hlt := h.length_lt
  have hm := asciiCodeReMatch_of_isCodeThen h
  cases s with
  | nil => simp at hlt
  | cons c cs =>
    simp only [asciiCodeReReplaceAll, List.length_cons, replaceAllLoop, hm]
    simp only [List.length_cons] at hlt
    exact replaceAllLoop_bound _ _ rest (by omega) (Nat.le_refl _)

/-- A character at which no match starts is copied. -/
theorem asciiCodeReReplaceAll_keep (c : Char) (cs : GoString)
    (h : ¬ StartsWithCode (c :: cs)) :
    asciiCodeReReplaceAll (c :: cs) = c :: asciiCodeReReplaceAll cs := by
  have hm := (asciiCodeReMatch_eq_none_iff (c :: cs)).mpr h
  simp only [asciiCodeReReplaceAll, List.length_cons, replaceAllLoop, hm]

theorem not_startsWithCode_of_ne (c : Char) (cs : GoString) (h : c ≠ '\x1b') :
    ¬ StartsWithCode (c :: cs) := by
  rintro ⟨rest, ds, _, heq⟩
  simp only [List.cons.injEq] at heq
  exact h heq.1

/-- A text without ESC passes the filter unchanged, whatever follows it. -/
theorem asciiCodeReReplaceAll_append_plain (t s : GoString) (h : '\x1b' ∉ t) :
    asciiCodeReReplaceAll (t ++ s) = t ++ asciiCodeReReplaceAll s := by
  induction t with
  | nil => rfl
  | cons c t ih =>
    have hc : c ≠ '\x1b' := fun e => h (e ▸ List.mem_cons_self _ _)
    have ht : '\x1b' ∉ t := fun e => h (List.mem_cons_of_mem _ e)
    rw [List.cons_append, asciiCodeReReplaceAll_keep c _ (not_startsWithCode_of_ne c _ hc), ih ht,
      List.cons_append]

theorem asciiCodeReReplaceAll_plain (t : GoString) (h : '\x1b' ∉ t) :
    asciiCodeReReplaceAll t = t := by
  have := asciiCodeReReplaceAll_append_plain t [] h
  simpa [asciiCodeReReplaceAll_nil] using this

/-! ## The scanner loop -/

theorem foldl_lines (acc : GoString) (lines : List GoString) :
    lines.foldl (fun text line => text ++ (line ++ "\n".toList)) acc = acc ++ joinLines lines := by
  induction lines generalizing acc with
  | nil => simp [joinLines]
  | cons l ls ih =>
    rw [List.foldl_cons, ih]
    simp [joinLines, List.append_assoc]

/-- The loop `text += partial + "\n"` leaves each line followed by one newline. -/
theorem accumulateLines_eq (lines : List GoString) :
    accumulateLines lines = joinLines lines := by
  have h := foldl_lines [] lines
  rw [List.nil_append] at h
  exact h

theorem dropCR_of_no_CR (l : GoString) (h : l.getLast? ≠ some '\r') : dropCR l = l := by
  simp [dropCR, h]

/-- A newline ends the current line. -/
theorem scanTokens_line (limit : Nat) (l rest cur : GoString) (hl : '\n' ∉ l) :
    scanTokens limit (l ++ '\n' :: rest) cur =
      if len (cur ++ l) < limit then dropCR (cur ++ l) :: scanTokens limit rest [] else [] := by
  induction l generalizing cur with
  | nil => simp [scanTokens]
  | cons c l ih =>
    have hc : c ≠ '\n' := fun e => hl (e ▸ List.mem_cons_self _ _)
    have hl2 : '\n' ∉ l := fun e => hl (List.mem_cons_of_mem _ e)
    rw [List.cons_append, scanTokens, if_neg hc, ih (cur ++ [c]) hl2]
    simp [List.append_assoc]

/-- The end of input ends a non-empty last line. -/
theorem scanTokens_last (limit : Nat) (l cur : GoString) (hl : '\n' ∉ l) :
    scanTokens limit l cur =
      if cur ++ l = [] then []
      else if len (cur ++ l) < limit then [dropCR (cur ++ l)] else [] := by
  induction l generalizing cur with
  | nil => simp [scanTokens]
  | cons c l ih =>
    have hc : c ≠ '\n' := fun e => hl (e ▸ List.mem_cons_self _ _)
    have hl2 : '\n' ∉ l := fun e => hl (List.mem_cons_of_mem _ e)
    rw [scanTokens, if_neg hc, ih (cur ++ [c]) hl2]
    simp [List.append_assoc]

/-- Scanning newline-terminated lines gives the lines back. -/
theorem scanTokens_joinLines (limit : Nat) (lines : List GoString)
    (h : ∀ l ∈ lines, PlainLine limit l) :
    scanTokens limit (joinLines lines) [] = lines := by
  induction lines with
  | nil => simp [joinLines, scanTokens]
  | cons l ls ih =>
    obtain ⟨h1, h2, h3⟩ := h l (List.mem_cons_self _ _)
    have hrest : scanTokens limit (joinLines ls) [] = ls :=
      ih (fun x hx => h x (List.mem_cons_of_mem _ hx))
    have hjoin : joinLines (l :: ls) = l ++ '\n' :: joinLines ls := by
      simp [joinLines]
    rw [hjoin, scanTokens_line limit l _ [] h1]
    simp [h3, dropCR_of_no_CR l h2, hrest]

/-! ## Message assembly -/

theorem maxCharacters_lt_maxSize : maxCharacters < maxSize := by decide

/-- The four outcomes of the assembly, by the two tests on the text and the
test on the file path. -/
theorem assembleMessage_eq (w : World) (text filePath : GoString) :
    assembleMessage w text filePath =
      if maxCharacters < len text then
        if maxSize < len text then .error errTooBig
        else if filePath = [] then .ok { files := [textAttachment text], text := [] }
        else match makeAttachmentFromPath w filePath with
          | .error err => .error err
          | .ok file => .ok { files := [textAttachment text, file], text := [] }
      else if filePath = [] then .ok { files := [], text := text }
        else match makeAttachmentFromPath w filePath with
          | .error err => .error err
          | .ok file => .ok { files := [file], text := text } := by
  unfold assembleMessage
  by_cases h1 : maxCharacters < len text
  · by_cases h2 : maxSize < len text
    · have h2b : maxSize < (toBytes text).length := h2
      simp [h1, h2, h2b, errTooBig, throw, throwThe, MonadExceptOf.throw, bind, Except.bind]
    · have h2b : ¬ maxSize < (toBytes text).length := h2
      by_cases h3 : filePath = []
      · simp [h1, h2, h2b, h3, textAttachment, bind, Except.bind, pure, Except.pure]
      · cases hf : makeAttachmentFromPath w filePath <;>
          simp [h1, h2, h2b, h3, hf, textAttachment, bind, Except.bind, pure, Except.pure]
  · by_cases h3 : filePath = []
    · simp [h1, h3, bind, Except.bind, pure, Except.pure]
    · cases hf : makeAttachmentFromPath w filePath <;>
        simp [h1, h3, hf, bind, Except.bind, pure, Except.pure]

theorem buildMessage_of_collectText {w : World} {text : GoString}
    (h : collectText w = .ok text) (filePath : GoString) :
    buildMessage w filePath = assembleMessage w text filePath := by
  simp [buildMessage, h, bind, Except.bind]

theorem buildMessage_of_collectText_error {w : World} {err : Failure}
    (h : collectText w = .error err) (filePath : GoString) :
    buildMessage w filePath = .error err := by
  simp [buildMessage, h, bind, Except.bind]

theorem collectText_eq (w : World) :
    collectText w =
      match getTextFromStdin w with
      | .error err => .error err
      | .ok text => .ok (text ++ getTextFromArgs w) := by
  unfold collectText
  cases getTextFromStdin w <;> simp [bind, Except.bind, pure, Except.pure]

/-! ## The two send paths -/

theorem sendMessageTextOnly_requests (w : World) (m : Message) (webhook : GoString) :
    (sendMessageTextOnly w m webhook).2 = [textOnlyRequest m webhook] := by
  unfold sendMessageTextOnly
  simp only
  split
  · rfl
  · split
    · split <;> rfl
    · rfl

theorem sendMessageWithFile_requests (w : World) (m : Message) (webhook : GoString) :
    (sendMessageWithFile w m webhook).2 = [withFileRequest w m webhook] := by
  unfold sendMessageWithFile
  simp only
  split
  · rfl
  · split <;> rfl

/-- The two send paths never post the same request. -/
theorem textOnlyRequest_ne_withFileRequest (w : World) (m m2 : Message) (u u2 : GoString) :
    textOnlyRequest m u ≠ withFileRequest w m2 u2 := by
  intro h
  have hb := congrArg Request.body h
  simp [textOnlyRequest, withFileRequest] at hb

theorem mainAction_of_ok {w : World} {filePath arg url : GoString} {m : Message}
    (hw : getWebhook w arg = .ok url) (hb : buildMessage w filePath = .ok m) :
    mainAction w filePath arg =
      if m.files.length = 0 then sendMessageTextOnly w m url
      else sendMessageWithFile w m url := by
  simp [mainAction, hw, hb]

theorem mainAction_of_webhook_error {w : World} {arg : GoString} {err : Failure}
    (hw : getWebhook w arg = .error err) (filePath : GoString) :
    mainAction w filePath arg = (.error err, []) := by
  simp [mainAction, hw]

theorem mainAction_of_build_error {w : World} {filePath arg url : GoString} {err : Failure}
    (hw : getWebhook w arg = .ok url) (hb : buildMessage w filePath = .error err) :
    mainAction w filePath arg = (.error err, []) := by
  simp [mainAction, hw, hb]

theorem getWebhook_of_arg (w : World) (arg : GoString) (h : arg ≠ []) :
    getWebhook w arg = .ok arg := by
  simp [getWebhook, h]

/-! ## Collecting the text on a terminal -/

theorem getTextFromStdin_charDevice {w : World} (h : w.stdinStat = .ok true) :
    getTextFromStdin w = .ok [] := by
  simp [getTextFromStdin, h, stdinLines, accumulateLines, asciiCodeReReplaceAll_nil]

/-- On a terminal, a single argument is the whole collected text. -/
theorem collectText_single_arg {w : World} {a : GoString} (h : w.stdinStat = .ok true)
    (ha : w.args = [a]) : collectText w = .ok a := by
  rw [collectText_eq, getTextFromStdin_charDevice h]
  simp [getTextFromArgs, ha, List.intercalate]

/-- A string of `n` copies of one character has `n` times its encoded size. -/
theorem len_replicate (n : Nat) (c : Char) : len (List.replicate n c) = n * c.utf8Size := by
  induction n with
  | zero => simp [len_nil]
  | succ n ih => rw [List.replicate_succ, len_cons, ih, Nat.succ_mul, Nat.add_comm]

/-- The file name `path.Split` returns is the final path segment: what
follows the last slash. -/
theorem pathSplit_spec (p : GoString) :
    p = (pathSplit p).1 ++ (pathSplit p).2 ∧ '/' ∉ (pathSplit p).2 ∧
      ((pathSplit p).1 = [] ∨ (pathSplit p).1.getLast? = some '/') := by
  have hsplit : p = (p.reverse.dropWhile (fun c => c != '/')).reverse ++
      (p.reverse.takeWhile (fun c => c != '/')).reverse := by
    rw [← List.reverse_append, List.takeWhile_append_dropWhile, List.reverse_reverse]
  have hdir : (pathSplit p).1 = (p.reverse.dropWhile (fun c => c != '/')).reverse := by
    have hlen : p.length - ((p.reverse.takeWhile (fun c => c != '/')).reverse).length =
        ((p.reverse.dropWhile (fun c => c != '/')).reverse).length := by
      have := congrArg List.length hsplit
      simp only [List.length_append] at this
      omega
    simp only [pathSplit]
    rw [hlen]
    generalize (p.reverse.dropWhile (fun c => c != '/')).reverse = d at hsplit ⊢
    generalize (p.reverse.takeWhile (fun c => c != '/')).reverse = f at hsplit
    rw [hsplit]
    exact List.take_left' rfl
  refine ⟨?_, ?_, ?_⟩
  · rw [hdir]
    exact hsplit
  · intro hmem
    simp only [pathSplit, List.mem_reverse] at hmem
    have := List.mem_takeWhile_imp hmem
    simp at this
  · rw [hdir]
    cases hd : p.reverse.dropWhile (fun c => c != '/') with
    | nil => left; rfl
    | cons c cs =>
      right
      have hhead := List.head_dropWhile_not (fun c => c != '/') p.reverse (by simp [hd])
      simp only [hd, List.head_cons] at hhead
      have hc : c = '/' := by simpa using hhead
      simp [hc]

/-! ## Claims about message assembly -/

/-- A text of at most 2000 bytes and no file: the message carries the text as
it is, without attachment, and goes out through `sendMessageTextOnly`. -/
theorem mainAction_short_text (w : World) (text arg url : GoString)
    (hcollect : collectText w = .ok text) (hshort : len text ≤ 2000)
    (hw : getWebhook w arg = .ok url) :
    buildMessage w [] = .ok { files := [], text := text } ∧
    mainAction w [] arg = sendMessageTextOnly w { files := [], text := text } url := by
  have h1 : ¬ maxCharacters < len text := by
    simp only [maxCharacters]
    omega
  have hbuild : buildMessage w [] = .ok { files := [], text := text } := by
    rw [buildMessage_of_collectText hcollect, assembleMessage_eq]
    simp [h1]
  exact ⟨hbuild, by rw [mainAction_of_ok hw hbuild]; rfl⟩

/-- On the text-only path an answer other than 204 is reported with the
status and the body of the response. -/
theorem sendMessageTextOnly_rejected (w : World) (m : Message) (url body : GoString)
    (response : Response) (hpost : w.httpPost (textOnlyRequest m url) = .ok response)
    (hstatus : response.StatusCode ≠ 204) (hbody : response.body = .ok body) :
    (sendMessageTextOnly w m url).1 =
      .error (.error ("Discord returned status: ".toList ++ response.Status ++
        ", message: ".toList ++ body)) := by
  simp [sendMessageTextOnly, hpost, hstatus, hbody]

/-- On the text-only path, and on the file path, the answer 204 is success. -/
theorem send_accepted (w : World) (m : Message) (url : GoString) (response : Response)
    (hstatus : response.StatusCode = 204) :
    (w.httpPost (textOnlyRequest m url) = .ok response →
      (sendMessageTextOnly w m url).1 = .ok ()) ∧
    (w.httpPost (withFileRequest w m url) = .ok response →
      (sendMessageWithFile w m url).1 = .ok ()) := by
  constructor <;> intro hpost
  · simp [sendMessageTextOnly, hpost, hstatus]
  · simp [sendMessageWithFile, hpost, hstatus]

/-- C1, at a text of 1001 characters and 2002 bytes: the test
`len(text) > maxCharacters` counts bytes, so a text of at most 2000 characters
is moved into the attachment `message.txt`, `Message.text` is empty, and
`mainAction` posts it through `sendMessageWithFile`. -/
theorem C1_limit_counts_bytes :
    runeCount accents ≤ 2000 ∧ len accents = 2002 ∧
    collectText worldAccents = .ok accents ∧
    buildMessage worldAccents [] =
      .ok { files := [NewAttachment "message.txt".toList (toBytes accents)], text := [] } ∧
    mainAction worldAccents [] hook =
      sendMessageWithFile worldAccents
        { files := [NewAttachment "message.txt".toList (toBytes accents)], text := [] } hook ∧
    (mainAction worldAccents [] hook).2 ≠
      [textOnlyRequest { files := [], text := accents } hook] := by
  have hlen : len accents = 2002 := by
    rw [accents, len_replicate]
    decide
  have hcollect : collectText worldAccents = .ok accents :=
    collectText_single_arg rfl rfl
  have hbuild : buildMessage worldAccents [] =
      .ok { files := [NewAttachment "message.txt".toList (toBytes accents)], text := [] } := by
    rw [buildMessage_of_collectText hcollect, assembleMessage_eq, hlen]
    simp [maxCharacters, maxSize, textAttachment]
  have hmain := mainAction_of_ok (getWebhook_of_arg worldAccents hook (by decide)) hbuild
  simp only [List.length_singleton, Nat.succ_ne_zero, if_false] at hmain
  have hrunes : runeCount accents ≤ 2000 := by
    rw [runeCount, accents, List.length_replicate]
    decide
  refine ⟨hrunes, hlen, hcollect, hbuild, hmain, ?_⟩
  rw [hmain, sendMessageWithFile_requests]
  intro h
  simp only [List.cons.injEq, and_true] at h
  exact textOnlyRequest_ne_withFileRequest _ _ _ _ _ h.symm

/-- C2. A collected text of more than 2000 characters and at most 8 MiB of
UTF-8 bytes: without a file path `buildMessage` returns a message with empty
text and the single attachment `message.txt` holding the bytes of the text;
with a readable file path the attachments are `message.txt` and then the file,
named by the final path segment (what follows the last slash of the path) and
holding the bytes read. -/
theorem C2_overflow_becomes_attachment (w : World) (text : GoString)
    (hcollect : collectText w = .ok text) (hchars : 2000 < runeCount text)
    (hbytes : len text ≤ 8 * 1024 * 1024) :
    buildMessage w [] =
      .ok { files := [{ name := "message.txt".toList, file := toBytes text }], text := [] } ∧
    ∀ (filePath : GoString) (dat : List UInt8), filePath ≠ [] → w.readFile filePath = .ok dat →
      ∃ dir segment : GoString,
        filePath = dir ++ segment ∧ '/' ∉ segment ∧ (dir = [] ∨ dir.getLast? = some '/') ∧
        buildMessage w filePath =
          .ok { files := [{ name := "message.txt".toList, file := toBytes text },
                          { name := segment, file := dat }],
                text := [] } := by
  have hle := runeCount_le_len text
  have h1 : maxCharacters < len text := by
    simp only [maxCharacters]
    omega
  have h2 : ¬ maxSize < len text := by
    simp only [maxSize]
    omega
  constructor
  · rw [buildMessage_of_collectText hcollect, assembleMessage_eq]
    simp [h1, h2, textAttachment, NewAttachment]
  · intro filePath dat hpath hread
    obtain ⟨hs1, hs2, hs3⟩ := pathSplit_spec filePath
    refine ⟨(pathSplit filePath).1, (pathSplit filePath).2, hs1, hs2, hs3, ?_⟩
    rw [buildMessage_of_collectText hcollect, assembleMessage_eq]
    simp [h1, h2, hpath, makeAttachmentFromPath, hread, textAttachment, NewAttachment]

theorem runeCount_longText : runeCount longText = 2001 := by
  rw [runeCount, longText, List.length_replicate]

theorem len_longText : len longText = 2001 := by
  rw [longText, len_replicate_a]

/-- C2 at `worldLong`. -/
theorem C2_overflow_becomes_attachment_witness :
    buildMessage worldLong [] =
      .ok { files := [{ name := "message.txt".toList, file := toBytes longText }], text := [] } ∧
    ∃ dir segment : GoString,
      "logs/out.txt".toList = dir ++ segment ∧ '/' ∉ segment ∧
        (dir = [] ∨ dir.getLast? = some '/') ∧
        buildMessage worldLong "logs/out.txt".toList =
          .ok { files := [{ name := "message.txt".toList, file := toBytes longText },
                          { name := segment, file := [104, 105] }],
                text := [] } :=
  have h := C2_overflow_becomes_attachment worldLong longText
    (collectText_single_arg rfl rfl)
    (by rw [runeCount_longText]; decide) (by rw [len_longText]; decide)
  ⟨h.1, h.2 "logs/out.txt".toList [104, 105] (by decide) (by decide)⟩

theorem len_hugeText : len hugeText = maxSize + 1 := by
  rw [hugeText, len_replicate_a]

theorem len_exactText : len exactText = maxSize := by
  rw [exactText, len_replicate_a]

/-- C3. A collected text of more than 8 MiB of UTF-8 bytes, any file path:
`buildMessage` fails with the error `Message too big to send` (which reads
"message too big to send" when letter case is ignored) and returns no message;
`mainAction` issues no HTTP request, and once it has resolved the webhook and
collects the text it returns that error (without a webhook it has already
returned the error of `getWebhook`, before any text is collected).  A text of
exactly 8 MiB bytes is not rejected. -/
theorem C3_oversized_text_rejected (w : World) (text filePath arg : GoString)
    (hcollect : collectText w = .ok text) (hbig : 8 * 1024 * 1024 < len text) :
    buildMessage w filePath = .error (.error "Message too big to send".toList) ∧
    "Message too big to send".toList.map Char.toLower = "message too big to send".toList ∧
    (mainAction w filePath arg).2 = [] ∧
    (∀ url, getWebhook w arg = .ok url →
      mainAction w filePath arg = (.error (.error "Message too big to send".toList), [])) ∧
    (∀ err, getWebhook w arg = .error err → mainAction w filePath arg = (.error err, [])) ∧
    (∀ (w2 : World) (text2 : GoString), collectText w2 = .ok text2 →
      len text2 = 8 * 1024 * 1024 →
      buildMessage w2 [] =
        .ok { files := [{ name := "message.txt".toList, file := toBytes text2 }], text := [] }) := by
  have hbig2 : maxSize < len text := hbig
  have hbuild : buildMessage w filePath = .error (.error "Message too big to send".toList) := by
    rw [buildMessage_of_collectText hcollect, assembleMessage_eq]
    simp [hbig2, Nat.lt_trans maxCharacters_lt_maxSize hbig2, errTooBig]
  refine ⟨hbuild, by decide, ?_, ?_, ?_, ?_⟩
  · cases hw : getWebhook w arg with
    | error err => rw [mainAction_of_webhook_error hw]
    | ok url => rw [mainAction_of_build_error hw hbuild]
  · intro url hw
    exact mainAction_of_build_error hw hbuild
  · intro err hw
    exact mainAction_of_webhook_error hw filePath
  · intro w2 text2 hc2 hlen2
    have h1 : maxCharacters < len text2 := by
      rw [hlen2]
      decide
    have h2 : ¬ maxSize < len text2 := by
      rw [hlen2]
      decide
    rw [buildMessage_of_collectText hc2, assembleMessage_eq]
    simp [h1, h2, textAttachment, NewAttachment]

/-- C3 at `hugeText` with the webhook given as argument and without webhook,
and at `exactText`. -/
theorem C3_oversized_text_rejected_witness :
    buildMessage worldHuge [] = .error (.error "Message too big to send".toList) ∧
    mainAction worldHuge [] hook = (.error (.error "Message too big to send".toList), []) ∧
    mainAction worldHuge [] [] = (.error (.error "No webhook provided".toList), []) ∧
    buildMessage worldExact [] =
      .ok { files := [{ name := "message.txt".toList, file := toBytes exactText }], text := [] } :=
  have hbig : 8 * 1024 * 1024 < len hugeText := by
    rw [len_hugeText]
    decide
  have h := C3_oversized_text_rejected worldHuge hugeText [] hook
    (collectText_single_arg rfl rfl) hbig
  ⟨h.1, h.2.2.2.1 hook (by decide),
    (C3_oversized_text_rejected worldHuge hugeText [] []
      (collectText_single_arg rfl rfl) hbig).2.2.2.2.1 _ (by decide),
    h.2.2.2.2.2 worldExact exactText (collectText_single_arg rfl rfl)
      (by rw [len_exactText]; rfl)⟩

/-! ## Claims about the webhook and the transport -/

/-- C4. `getWebhook` returns a non-empty argument as it is, whatever the
environment holds and whatever the string looks like; with an empty argument
it returns a non-empty value of `DECHO_DISCORD_WEBHOOK`; with an empty
argument and the variable unset or empty it fails with the error
`No webhook provided` (which reads "no webhook provided" when letter case is
ignored). -/
theorem C4_getWebhook (w : World) (arg : GoString) :
    (arg ≠ [] → getWebhook w arg = .ok arg) ∧
    (∀ value, arg = [] → w.lookupEnv "DECHO_DISCORD_WEBHOOK".toList = some value →
      value ≠ [] → getWebhook w arg = .ok value) ∧
    (arg = [] →
      (w.lookupEnv "DECHO_DISCORD_WEBHOOK".toList = none ∨
        w.lookupEnv "DECHO_DISCORD_WEBHOOK".toList = some []) →
      getWebhook w arg = .error (.error "No webhook provided".toList)) ∧
    "No webhook provided".toList.map Char.toLower = "no webhook provided".toList := by
  refine ⟨getWebhook_of_arg w arg, ?_, ?_, by decide⟩
  · intro value harg henv hvalue
    subst harg
    unfold getWebhook World.Getenv
    rw [henv]
    simp [hvalue]
  · intro harg henv
    subst harg
    unfold getWebhook World.Getenv
    rcases henv with henv | henv <;> rw [henv] <;> simp

/-- C4 at an argument that is no URL while the environment holds a webhook,
at an empty argument with the variable set, unset, and set to the empty
string. -/
theorem C4_getWebhook_witness :
    getWebhook worldEnv "not a url".toList = .ok "not a url".toList ∧
    getWebhook worldEnv [] = .ok hook ∧
    getWebhook quiet [] = .error (.error "No webhook provided".toList) ∧
    getWebhook worldEmptyEnv [] = .error (.error "No webhook provided".toList) :=
  ⟨(C4_getWebhook worldEnv "not a url".toList).1 (by decide),
    (C4_getWebhook worldEnv []).2.1 hook rfl (by decide) (by decide),
    (C4_getWebhook quiet []).2.2.1 rfl (Or.inl (by decide)),
    (C4_getWebhook worldEmptyEnv []).2.2.1 rfl (Or.inr (by decide))⟩

/-- C5, at a text of 2001 bytes, no file, and a server answering 400 with the
body `oops`: the text travels as `message.txt` through `sendMessageWithFile`,
whose error holds the status and not the body; the same answer to a short
text, sent through `sendMessageTextOnly`, gives an error with status and
body. -/
theorem C5_file_route_drops_body :
    collectText worldLongRejected = .ok longText ∧
    (mainAction worldLongRejected [] hook).1 =
      .error (.error "Discord returned status: 400 Bad Request".toList) ∧
    ¬ "oops".toList <:+: "Discord returned status: 400 Bad Request".toList ∧
    (mainAction worldShortRejected [] hook).1 =
      .error (.error "Discord returned status: 400 Bad Request, message: oops".toList) := by
  have hcollect : collectText worldLongRejected = .ok longText :=
    collectText_single_arg rfl rfl
  have hbuild : buildMessage worldLongRejected [] =
      .ok { files := [textAttachment longText], text := [] } := by
    rw [buildMessage_of_collectText hcollect, assembleMessage_eq, len_longText]
    simp [maxCharacters, maxSize]
  have hmain := mainAction_of_ok (getWebhook_of_arg worldLongRejected hook (by decide)) hbuild
  simp only [List.length_singleton, Nat.succ_ne_zero, if_false] at hmain
  refine ⟨hcollect, ?_, by decide, by decide⟩
  rw [hmain]
  rfl

/-- C6. `mainAction` issues a request only when `getWebhook` and
`buildMessage` have both succeeded, and then exactly one: the request of
`sendMessageTextOnly` when the attachment list is empty, the request of
`sendMessageWithFile` otherwise, and the paths never coincide.  When
`getWebhook` fails, or `getWebhook` succeeds and `buildMessage` fails,
`mainAction` returns that error unchanged and issues no request; `buildMessage`
fails in particular on an unreadable file while the text alone was sendable,
with the error of the read. -/
theorem C6_one_post_or_none (w : World) (filePath arg : GoString) :
    ((mainAction w filePath arg).2 ≠ [] →
      ∃ url m, getWebhook w arg = .ok url ∧ buildMessage w filePath = .ok m) ∧
    (∀ url m, getWebhook w arg = .ok url → buildMessage w filePath = .ok m →
      (m.files = [] → mainAction w filePath arg = sendMessageTextOnly w m url ∧
        (mainAction w filePath arg).2 = [textOnlyRequest m url]) ∧
      (m.files ≠ [] → mainAction w filePath arg = sendMessageWithFile w m url ∧
        (mainAction w filePath arg).2 = [withFileRequest w m url]) ∧
      ((mainAction w filePath arg).2 = [textOnlyRequest m url] ↔ m.files = [])) ∧
    (∀ err, getWebhook w arg = .error err → mainAction w filePath arg = (.error err, [])) ∧
    (∀ url err, getWebhook w arg = .ok url → buildMessage w filePath = .error err →
      mainAction w filePath arg = (.error err, [])) ∧
    (∀ text err, collectText w = .ok text → len text ≤ 8 * 1024 * 1024 → filePath ≠ [] →
      w.readFile filePath = .error err → buildMessage w filePath = .error (.error err)) := by
  have hboth : ∀ url m, getWebhook w arg = .ok url → buildMessage w filePath = .ok m →
      (m.files = [] → mainAction w filePath arg = sendMessageTextOnly w m url ∧
        (mainAction w filePath arg).2 = [textOnlyRequest m url]) ∧
      (m.files ≠ [] → mainAction w filePath arg = sendMessageWithFile w m url ∧
        (mainAction w filePath arg).2 = [withFileRequest w m url]) := by
    intro url m hw hb
    have hmain := mainAction_of_ok hw hb
    constructor
    · intro hfiles
      have h : mainAction w filePath arg = sendMessageTextOnly w m url := by
        rw [hmain, hfiles]
        rfl
      exact ⟨h, by rw [h, sendMessageTextOnly_requests]⟩
    · intro hfiles
      have hlen : m.files.length ≠ 0 := fun h0 => hfiles (List.length_eq_zero.mp h0)
      have h : mainAction w filePath arg = sendMessageWithFile w m url := by
        rw [hmain, if_neg hlen]
      exact ⟨h, by rw [h, sendMessageWithFile_requests]⟩
  refine ⟨?_, ?_, ?_, ?_, ?_⟩
  · intro hsent
    cases hw : getWebhook w arg with
    | error err =>
      rw [mainAction_of_webhook_error hw] at hsent
      exact absurd rfl hsent
    | ok url =>
      cases hb : buildMessage w filePath with
      | error err =>
        rw [mainAction_of_build_error hw hb] at hsent
        exact absurd rfl hsent
      | ok m => exact ⟨url, m, rfl, rfl⟩
  · intro url m hw hb
    obtain ⟨h1, h2⟩ := hboth url m hw hb
    refine ⟨h1, h2, ?_, fun hfiles => (h1 hfiles).2⟩
    intro hreq
    by_contra hfiles
    rw [(h2 hfiles).2] at hreq
    simp only [List.cons.injEq, and_true] at hreq
    exact textOnlyRequest_ne_withFileRequest _ _ _ _ _ hreq.symm
  · intro err hw
    exact mainAction_of_webhook_error hw filePath
  · intro url err hw hb
    exact mainAction_of_build_error hw hb
  · intro text err hcollect hlen hpath hread
    have h2 : ¬ maxSize < len text := by
      simp only [maxSize]
      omega
    rw [buildMessage_of_collectText hcollect, assembleMessage_eq]
    by_cases h1 : maxCharacters < len text <;>
      simp [h1, h2, hpath, makeAttachmentFromPath, hread]

/-- C6 at a short text (one JSON request), at `longText` with a readable file
(one multipart request), without webhook, at `hugeText`, and at a missing
file. -/
theorem C6_one_post_or_none_witness :
    (∃ url m, getWebhook worldHi hook = .ok url ∧ buildMessage worldHi [] = .ok m) ∧
    (mainAction worldHi [] hook).2 =
      [textOnlyRequest { files := [], text := "hi".toList } hook] ∧
    (mainAction worldLong "logs/out.txt".toList hook).2 =
      [withFileRequest worldLong
        { files := [textAttachment longText, NewAttachment "out.txt".toList [104, 105]],
          text := [] } hook] ∧
    mainAction worldHi [] [] = (.error (.error "No webhook provided".toList), []) ∧
    mainAction worldHuge [] hook = (.error (.error "Message too big to send".toList), []) ∧
    buildMessage worldHi "missing.txt".toList =
      .error (.error "open: no such file or directory".toList) :=
  have hHi : buildMessage worldHi [] = .ok { files := [], text := "hi".toList } := by decide
  have hLong : buildMessage worldLong "logs/out.txt".toList =
      .ok { files := [textAttachment longText, NewAttachment "out.txt".toList [104, 105]],
            text := [] } := by
    have hfile : makeAttachmentFromPath worldLong "logs/out.txt".toList =
        .ok (NewAttachment "out.txt".toList [104, 105]) := by decide
    rw [buildMessage_of_collectText (collectText_single_arg rfl rfl), assembleMessage_eq,
      len_longText, hfile]
    simp [maxCharacters, maxSize]
  have hHuge : buildMessage worldHuge [] = .error (.error "Message too big to send".toList) := by
    rw [buildMessage_of_collectText (collectText_single_arg rfl rfl), assembleMessage_eq,
      len_hugeText]
    decide
  ⟨(C6_one_post_or_none worldHi [] hook).1 (by decide),
    (((C6_one_post_or_none worldHi [] hook).2.1 hook _ (by decide) hHi).1 rfl).2,
    (((C6_one_post_or_none worldLong "logs/out.txt".toList hook).2.1 hook _ (by decide)
      hLong).2.1 (by simp)).2,
    (C6_one_post_or_none worldHi [] []).2.2.1 _ (by decide),
    (C6_one_post_or_none worldHuge [] hook).2.2.2.1 hook _ (by decide) hHuge,
    (C6_one_post_or_none worldHi "missing.txt".toList hook).2.2.2.2 "hi".toList _
      (by decide) (by decide) (by decide) (by decide)⟩

/-! ## Claims about the input collector -/

theorem getTextFromStdin_eq {w : World} {isCharDevice : Bool}
    (hstat : w.stdinStat = .ok isCharDevice) :
    getTextFromStdin w = .ok (asciiCodeReReplaceAll (joinLines (stdinLines w isCharDevice))) := by
  simp [getTextFromStdin, hstat, accumulateLines_eq]

theorem collectText_of_stat {w : World} {isCharDevice : Bool}
    (hstat : w.stdinStat = .ok isCharDevice) :
    collectText w = .ok (asciiCodeReReplaceAll (joinLines (stdinLines w isCharDevice)) ++
      " ".toList.intercalate w.args) := by
  rw [collectText_eq, getTextFromStdin_eq hstat]
  rfl

theorem not_mem_joinLines (c : Char) (hc : c ≠ '\n') (lines : List GoString)
    (h : ∀ line ∈ lines, c ∉ line) : c ∉ joinLines lines := by
  induction lines with
  | nil => simp [joinLines]
  | cons l ls ih =>
    have hl := h l (List.mem_cons_self _ _)
    have hls := ih (fun x hx => h x (List.mem_cons_of_mem _ hx))
    have hjoin : joinLines (l :: ls) = l ++ '\n' :: joinLines ls := by
      simp [joinLines]
    rw [hjoin]
    simp only [List.mem_append, List.mem_cons, not_or]
    exact ⟨hl, hc, hls⟩

/-- C7 as stated fails on a coloured line: standard input holds the one line
`ESC[31mhi`, and the collected text is `hi` and a newline, not that line
followed by a newline. -/
theorem C7_counterexample :
    stdinLines (piped "\x1b[31mhi\n") false = ["\x1b[31mhi".toList] ∧
    collectText (piped "\x1b[31mhi\n") = .ok "hi\n".toList ∧
    collectText (piped "\x1b[31mhi\n") ≠
      .ok (joinLines (stdinLines (piped "\x1b[31mhi\n") false) ++
        " ".toList.intercalate (piped "\x1b[31mhi\n").args) := by
  decide

/-- C7, amended.  The collected text is (i) the lines the scanner reads from
standard input, in order, each followed by one newline, that text passed
through the ANSI filter, and then (ii) the arguments joined by single spaces,
with nothing between the two parts.  When no line holds an ESC character the
filter changes nothing.  When standard input is a sequence of lines, each
ended by a newline, shorter than 8 MiB, without ESC and not ending in a
carriage return, the collected text is standard input followed by the joined
arguments.  Standard input `hi` and a newline, without arguments or file, is
posted as the JSON object with content `hi` and a newline and username
`decho`. -/
theorem C7_collected_text (w : World) (isCharDevice : Bool)
    (hstat : w.stdinStat = .ok isCharDevice) :
    collectText w =
      .ok (asciiCodeReReplaceAll (joinLines (stdinLines w isCharDevice)) ++
        " ".toList.intercalate w.args) ∧
    ((∀ line ∈ stdinLines w isCharDevice, '\x1b' ∉ line) →
      collectText w =
        .ok (joinLines (stdinLines w isCharDevice) ++ " ".toList.intercalate w.args)) ∧
    (∀ lines : List GoString, isCharDevice = false → w.stdin = joinLines lines →
      (∀ line ∈ lines, '\n' ∉ line ∧ line.getLast? ≠ some '\r' ∧
        len line < 8 * 1024 * 1024 ∧ '\x1b' ∉ line) →
      stdinLines w isCharDevice = lines ∧
      collectText w = .ok (w.stdin ++ " ".toList.intercalate w.args)) ∧
    mainAction (piped "hi\n") [] hook =
      (.ok (), [{ url := hook
                  contentType := "application/json".toList
                  body := .json [("content".toList, "hi\n".toList),
                                 ("username".toList, "decho".toList)] }]) := by
  have hcollect := collectText_of_stat hstat
  have hplain : (∀ line ∈ stdinLines w isCharDevice, '\x1b' ∉ line) →
      collectText w =
        .ok (joinLines (stdinLines w isCharDevice) ++ " ".toList.intercalate w.args) := by
    intro h
    rw [hcollect, asciiCodeReReplaceAll_plain _ (not_mem_joinLines _ (by decide) _ h)]
  refine ⟨hcollect, hplain, ?_, by decide⟩
  intro lines hdev hstdin hlines
  have hscan : stdinLines w isCharDevice = lines := by
    rw [stdinLines, hdev, hstdin]
    exact scanTokens_joinLines maxSize lines
      (fun l hl => ⟨(hlines l hl).1, (hlines l hl).2.1, (hlines l hl).2.2.1⟩)
  refine ⟨hscan, ?_⟩
  rw [hplain (by rw [hscan]; exact fun l hl => (hlines l hl).2.2.2), hscan, hstdin]

/-- C7 (amended) at standard input `make` / `ok` with the arguments `all`
and `done`, and at standard input `ok` followed by a carriage return and a
newline. -/
theorem C7_collected_text_witness :
    collectText { piped "make\nok\n" with args := ["all".toList, "done".toList] } =
      .ok "make\nok\nall done".toList ∧
    collectText (piped "ok\r\n") = .ok "ok\n".toList :=
  ⟨((C7_collected_text { piped "make\nok\n" with args := ["all".toList, "done".toList] }
      false rfl).2.2.1 ["make".toList, "ok".toList] rfl (by decide) (by decide)).2,
    (C7_collected_text (piped "ok\r\n") false rfl).2.1 (by decide)⟩

/-- C8 as stated fails on ESC `[` `m`: the sequence without digits or
semicolons is removed from the text of standard input, not kept. -/
theorem C8_counterexample :
    asciiCodeReReplaceAll "a\x1b[mb".toList = "ab".toList ∧
    getTextFromStdin (piped "a\x1b[mb") = .ok "ab\n".toList ∧
    getTextFromStdin (piped "a\x1b[mb") ≠ .ok "a\x1b[mb\n".toList := by
  decide

/-- C8, amended.  The filter removes the sequences ESC `[`, zero or more
digits and semicolons, `m`, leftmost first and without overlap, and nothing
else: a sequence at the current position is dropped and filtering continues
behind it; a character at which no such sequence starts is kept and filtering
continues with the next character.  The filter is applied to the text read
from standard input only; the argument text is appended afterwards as it
is. -/
theorem C8_filter_removes_codes :
    asciiCodeReReplaceAll [] = [] ∧
    (∀ ds rest : GoString, (∀ d ∈ ds, ('0' ≤ d ∧ d ≤ '9') ∨ d = ';') →
      asciiCodeReReplaceAll ('\x1b' :: '[' :: (ds ++ 'm' :: rest)) =
        asciiCodeReReplaceAll rest) ∧
    (∀ (c : Char) (rest : GoString), ¬ StartsWithCode (c :: rest) →
      asciiCodeReReplaceAll (c :: rest) = c :: asciiCodeReReplaceAll rest) ∧
    (∀ (w : World) (isCharDevice : Bool), w.stdinStat = .ok isCharDevice →
      getTextFromStdin w =
        .ok (asciiCodeReReplaceAll (joinLines (stdinLines w isCharDevice)))) ∧
    (∀ (w : World) (text : GoString), getTextFromStdin w = .ok text →
      collectText w = .ok (text ++ " ".toList.intercalate w.args)) := by
  refine ⟨asciiCodeReReplaceAll_nil, ?_, asciiCodeReReplaceAll_keep, ?_, ?_⟩
  · intro ds rest hds
    exact asciiCodeReReplaceAll_code ⟨ds, hds, rfl⟩
  · intro w isCharDevice hstat
    exact getTextFromStdin_eq hstat
  · intro w text htext
    rw [collectText_eq, htext]
    rfl

/-- C8 (amended) at the sequence `ESC[1;31m` before `x`, at the character
`x` before it, and at a run whose argument is an SGR sequence. -/
theorem C8_filter_removes_codes_witness :
    asciiCodeReReplaceAll "\x1b[1;31mx".toList = asciiCodeReReplaceAll "x".toList ∧
    asciiCodeReReplaceAll "x\x1b[1;31m".toList = 'x' :: asciiCodeReReplaceAll "\x1b[1;31m".toList ∧
    getTextFromStdin (piped "\x1b[0mok\n") = .ok (asciiCodeReReplaceAll "\x1b[0mok\n".toList) ∧
    collectText { piped "\x1b[0mok\n" with args := ["\x1b[0m".toList] } =
      .ok "ok\n\x1b[0m".toList :=
  ⟨C8_filter_removes_codes.2.1 "1;31".toList "x".toList (by decide),
    C8_filter_removes_codes.2.2.1 'x' "\x1b[1;31m".toList
      (not_startsWithCode_of_ne _ _ (by decide)),
    C8_filter_removes_codes.2.2.2.1 (piped "\x1b[0mok\n") false rfl,
    C8_filter_removes_codes.2.2.2.2 { piped "\x1b[0mok\n" with args := ["\x1b[0m".toList] }
      "ok\n".toList (by decide)⟩

theorem isParam_ne_newline {d : Char} (h : IsParam d) : d ≠ '\n' := by
  intro e
  subst e
  revert h
  decide

theorem asciiCodeReReplaceAll_length_le (s : GoString) :
    (asciiCodeReReplaceAll s).length ≤ s.length := by
  have h : ∀ (n : Nat) (s : GoString), (replaceAllLoop n s).length ≤ s.length := by
    intro n
    induction n with
    | zero => intro s; simp [replaceAllLoop]
    | succ n ih =>
      intro s
      cases s with
      | nil => simp [replaceAllLoop]
      | cons c cs =>
        simp only [replaceAllLoop]
        cases hmatch : asciiCodeReMatch (c :: cs) with
        | some after =>
          have hlt := (isCodeThen_of_asciiCodeReMatch hmatch).length_lt
          have := ih after
          simp only
          omega
        | none =>
          have := ih cs
          simp only [List.length_cons]
          omega
  exact h _ s

/-- The filter shortens every text that contains a sequence. -/
theorem asciiCodeReReplaceAll_length_lt (before rest : GoString) (h : StartsWithCode rest) :
    (asciiCodeReReplaceAll (before ++ rest)).length < (before ++ rest).length := by
  induction before with
  | nil =>
    obtain ⟨after, hafter⟩ := h
    have h1 := hafter.length_lt
    have h2 := asciiCodeReReplaceAll_length_le after
    rw [List.nil_append, asciiCodeReReplaceAll_code hafter]
    omega
  | cons c before ih =>
    rw [List.cons_append]
    cases hmatch : asciiCodeReMatch (c :: (before ++ rest)) with
    | some after =>
      have hcode := isCodeThen_of_asciiCodeReMatch hmatch
      have h1 := hcode.length_lt
      have h2 := asciiCodeReReplaceAll_length_le after
      rw [asciiCodeReReplaceAll_code hcode]
      omega
    | none =>
      rw [asciiCodeReReplaceAll_keep c _ ((asciiCodeReMatch_eq_none_iff _).mp hmatch)]
      simp only [List.length_cons]
      omega

/-- The filter leaves a text unchanged exactly when the text contains no
sequence. -/
theorem asciiCodeReReplaceAll_eq_self_iff (s : GoString) :
    asciiCodeReReplaceAll s = s ↔ ¬ ContainsCode s := by
  constructor
  · rintro heq ⟨before, rest, hstart, rfl⟩
    have := asciiCodeReReplaceAll_length_lt before rest hstart
    rw [heq] at this
    exact Nat.lt_irrefl _ this
  · intro h
    induction s with
    | nil => rfl
    | cons c cs ih =>
      have hc : ¬ StartsWithCode (c :: cs) := fun hs => h ⟨[], c :: cs, hs, rfl⟩
      have hcs : ¬ ContainsCode cs := by
        rintro ⟨before, rest, hstart, rfl⟩
        exact h ⟨c :: before, rest, hstart, rfl⟩
      rw [asciiCodeReReplaceAll_keep c cs hc, ih hcs]

theorem Unnested.append {s t : GoString} (hs : Unnested s) (ht : Unnested t) :
    Unnested (s ++ t) := by
  induction hs with
  | nil => exact ht
  | keep c s hc _ ih => exact Unnested.keep c _ hc ih
  | code ds s hds _ ih =>
    have := Unnested.code ds _ hds ih
    simpa [List.append_assoc] using this

theorem Unnested.joinLines {lines : List GoString} (h : ∀ line ∈ lines, Unnested line) :
    Unnested (joinLines lines) := by
  induction lines with
  | nil => exact Unnested.nil
  | cons l ls ih =>
    have hjoin : Decho.joinLines (l :: ls) = l ++ ('\n' :: Decho.joinLines ls) := by
      simp [Decho.joinLines]
    rw [hjoin]
    exact (h l (List.mem_cons_self _ _)).append
      (Unnested.keep _ _ (by decide) (ih (fun x hx => h x (List.mem_cons_of_mem _ hx))))

/-- Filtering an unnested text leaves no ESC character. -/
theorem Unnested.no_esc {s : GoString} (h : Unnested s) : '\x1b' ∉ asciiCodeReReplaceAll s := by
  induction h with
  | nil => simp [asciiCodeReReplaceAll_nil]
  | keep c s hc _ ih =>
    rw [asciiCodeReReplaceAll_keep c s (not_startsWithCode_of_ne c s hc)]
    simp only [List.mem_cons, not_or]
    exact ⟨fun e => hc e.symm, ih⟩
  | code ds s hds _ ih =>
    rw [asciiCodeReReplaceAll_code ⟨ds, hds, rfl⟩]
    exact ih

theorem not_containsCode_of_no_esc {s : GoString} (h : '\x1b' ∉ s) : ¬ ContainsCode s := by
  rintro ⟨before, rest, ⟨after, ds, _, hrest⟩, rfl⟩
  apply h
  rw [hrest]
  simp

/-- C9 as stated fails at its own example: the scanner loop appends a newline
to the line, so the collected text is `Hello` followed by a newline. -/
theorem C9_counterexample :
    collectText (piped "\x1b[31mHello\x1b[0m") = .ok "Hello\n".toList ∧
    collectText (piped "\x1b[31mHello\x1b[0m") ≠ .ok "Hello".toList := by
  decide

/-- C9, amended.  For every text `t` without ESC and without newline, standard
input consisting of `t` between two SGR sequences (ESC `[`, digits and
semicolons, `m`), shorter than 8 MiB, with no arguments, yields the collected
text `t` followed by one newline. -/
theorem C9_wrapped_text (w : World) (t ds1 ds2 : GoString)
    (hstat : w.stdinStat = .ok false) (hargs : w.args = [])
    (hesc : '\x1b' ∉ t) (hnl : '\n' ∉ t)
    (h1 : ∀ d ∈ ds1, ('0' ≤ d ∧ d ≤ '9') ∨ d = ';')
    (h2 : ∀ d ∈ ds2, ('0' ≤ d ∧ d ≤ '9') ∨ d = ';')
    (hstdin : w.stdin = '\x1b' :: '[' :: (ds1 ++ 'm' :: (t ++ '\x1b' :: '[' :: (ds2 ++ ['m']))))
    (hlen : len w.stdin < 8 * 1024 * 1024) :
    collectText w = .ok (t ++ ['\n']) := by
  have hn1 : '\n' ∉ ds1 := fun hm => isParam_ne_newline (h1 _ hm) rfl
  have hn2 : '\n' ∉ ds2 := fun hm => isParam_ne_newline (h2 _ hm) rfl
  have hnostdin : '\n' ∉ w.stdin := by
    rw [hstdin]
    simp [hn1, hn2, hnl]
  have hne : w.stdin ≠ [] := by
    rw [hstdin]
    simp
  have hlast : w.stdin.getLast? ≠ some '\r' := by
    rw [hstdin]
    have : ('\x1b' :: '[' :: (ds1 ++ 'm' :: (t ++ '\x1b' :: '[' :: (ds2 ++ ['m'])))) =
        ('\x1b' :: '[' :: (ds1 ++ 'm' :: (t ++ '\x1b' :: '[' :: ds2))) ++ ['m'] := by
      simp [List.append_assoc]
    rw [this, List.getLast?_append]
    simp
  have hlines : stdinLines w false = [w.stdin] := by
    have hlen2 : len w.stdin < maxSize := hlen
    rw [stdinLines, if_neg (by decide), scanTokens_last maxSize w.stdin [] hnostdin]
    simp [hne, hlen2, dropCR_of_no_CR _ hlast]
  have hjoin : joinLines [w.stdin] = w.stdin ++ ['\n'] := by
    simp [joinLines]
  rw [collectText_of_stat hstat, hlines, hjoin, hargs, hstdin]
  have hcode1 : IsCodeThen
      (('\x1b' :: '[' :: (ds1 ++ 'm' :: (t ++ '\x1b' :: '[' :: (ds2 ++ ['m'])))) ++ ['\n'])
      (t ++ ('\x1b' :: '[' :: (ds2 ++ 'm' :: ['\n']))) :=
    ⟨ds1, h1, by simp [List.append_assoc]⟩
  have hcode2 : IsCodeThen ('\x1b' :: '[' :: (ds2 ++ 'm' :: ['\n'])) ['\n'] :=
    ⟨ds2, h2, rfl⟩
  rw [asciiCodeReReplaceAll_code hcode1, asciiCodeReReplaceAll_append_plain t _ hesc,
    asciiCodeReReplaceAll_code hcode2,
    asciiCodeReReplaceAll_plain ['\n'] (by decide)]
  simp [List.intercalate]

/-- C9 (amended) at standard input `ESC[31mHello ESC[0m`. -/
theorem C9_wrapped_text_witness :
    collectText (piped "\x1b[31mHello\x1b[0m") = .ok "Hello\n".toList :=
  C9_wrapped_text (piped "\x1b[31mHello\x1b[0m") "Hello".toList "31".toList "0".toList
    rfl rfl (by decide) (by decide) (by decide) (by decide) rfl (by decide)

/-- C10 as stated fails on a nested sequence: from ESC `[` ESC `[` `0` `m`
`0` `m` the single pass removes the inner sequence and leaves ESC `[` `0` `m`,
which matches the pattern, and a second pass removes it. -/
theorem C10_counterexample :
    getTextFromStdin (piped "\x1b[\x1b[0m0m") = .ok "\x1b[0m\n".toList ∧
    ContainsCode "\x1b[0m\n".toList ∧
    asciiCodeReReplaceAll (asciiCodeReReplaceAll "\x1b[\x1b[0m0m".toList) ≠
      asciiCodeReReplaceAll "\x1b[\x1b[0m0m".toList := by
  refine ⟨by decide, ?_, by decide⟩
  exact ⟨[], "\x1b[0m\n".toList, ⟨"\n".toList, "0".toList, by decide, rfl⟩, rfl⟩

/-- C10, amended.  Whenever every ESC character of the lines read from
standard input begins a complete SGR sequence (no sequence is nested in
another or cut short), the text returned by `getTextFromStdin` holds no ESC
character, contains no SGR sequence, and filtering it again changes nothing.
For every text, the filter leaves it unchanged exactly when it contains no SGR
sequence. -/
theorem C10_filter_on_unnested_input (w : World) (isCharDevice : Bool) (text : GoString)
    (hstat : w.stdinStat = .ok isCharDevice)
    (hlines : ∀ line ∈ stdinLines w isCharDevice, Unnested line)
    (htext : getTextFromStdin w = .ok text) :
    '\x1b' ∉ text ∧ ¬ ContainsCode text ∧ asciiCodeReReplaceAll text = text ∧
    ∀ s : GoString, asciiCodeReReplaceAll s = s ↔ ¬ ContainsCode s := by
  rw [getTextFromStdin_eq hstat] at htext
  simp only [Except.ok.injEq] at htext
  subst htext
  have hesc := (Unnested.joinLines hlines).no_esc
  exact ⟨hesc, not_containsCode_of_no_esc hesc, asciiCodeReReplaceAll_plain _ hesc,
    asciiCodeReReplaceAll_eq_self_iff⟩

/-- C10 (amended) at standard input `ESC[1mbold ESC[0m plain`. -/
theorem C10_filter_on_unnested_input_witness :
    '\x1b' ∉ "bold plain\n".toList ∧ ¬ ContainsCode "bold plain\n".toList ∧
    asciiCodeReReplaceAll "bold plain\n".toList = "bold plain\n".toList :=
  have h := C10_filter_on_unnested_input (piped "\x1b[1mbold\x1b[0m plain\n") false
    "bold plain\n".toList rfl
    (by
      intro line hline
      have hl : line = "\x1b[1mbold\x1b[0m plain".toList := by
        have hs : stdinLines (piped "\x1b[1mbold\x1b[0m plain\n") false =
            ["\x1b[1mbold\x1b[0m plain".toList] := by decide
        rw [hs] at hline
        simpa using hline
      subst hl
      exact Unnested.code "1".toList _ (by decide)
        (Unnested.append (s := "bold".toList)
          (Unnested.keep _ _ (by decide) (Unnested.keep _ _ (by decide)
            (Unnested.keep _ _ (by decide) (Unnested.keep _ _ (by decide) Unnested.nil))))
          (Unnested.code "0".toList " plain".toList (by decide)
            (Unnested.keep _ _ (by decide) (Unnested.keep _ _ (by decide)
              (Unnested.keep _ _ (by decide) (Unnested.keep _ _ (by decide)
                (Unnested.keep _ _ (by decide) (Unnested.keep _ _ (by decide)
                  Unnested.nil)))))))))
    (by decide)
  ⟨h.1, h.2.1, h.2.2.1⟩

end Decho
